import Mathlib

/-!
Verification of the FrameX media player's queueing, navigation and volume
logic, shallowly embedded from the React/TypeScript source (`App` component
and `ThumbnailCard` component).

State that lives in React `useState` hooks is modelled as explicit record
fields; each event handler / effect body becomes a pure state-transformer;
the interleaving of effect runs and completions is modelled by a small-step
reachability relation.
-/

namespace FrameX

/-! ### Thumbnail scheduler (App component)

Embeds the `thumbQueue` / `processing` / `thumbnailCache` state hooks, the
process-queue effect, `addToQueue` and `removeFromProcessing`. The
`Record<string, string>` caches are modelled as association lists whose
lookup takes the most recent binding, matching `{ ...prev, [path]: data }`
overwrite semantics. -/

structure ThumbState where
  thumbQueue : List String
  processing : List String
  thumbnailCache : List (String × String)
  deriving Repr, DecidableEq

/-- `const maxConcurrency = 8;` -/
def maxConcurrency : Nat := 8

/-- The process-queue effect body: if the queue is non-empty and fewer than
`maxConcurrency` paths are in flight, pop the head of `thumbQueue` and
append it to `processing`. -/
def processQueue (s : ThumbState) : ThumbState :=
  match s.thumbQueue with
  | [] => s
  | nextPath :: rest =>
    if s.processing.length < maxConcurrency then
      { s with thumbQueue := rest, processing := s.processing ++ [nextPath] }
    else s

/-- `addToQueue`: refuse a path already queued or already in flight,
otherwise append it to the tail of the queue. -/
def addToQueue (path : String) (s : ThumbState) : ThumbState :=
  if path ∈ s.thumbQueue ∨ path ∈ s.processing then s
  else { s with thumbQueue := s.thumbQueue ++ [path] }

/-- `removeFromProcessing`: `prev.filter(p => p !== path)`. -/
def removeFromProcessing (path : String) (s : ThumbState) : ThumbState :=
  { s with processing := s.processing.filter (fun p => p ≠ path) }

/-- The `ThumbnailCard` mount effect: `if (!thumbnailCache[path]) addToQueue(path)`. -/
def enqueueOnMount (path : String) (s : ThumbState) : ThumbState :=
  if (s.thumbnailCache.lookup path).isSome then s else addToQueue path s

/-- Successful completion of `loadThumb` for `path`: store the data in the
parent cache (`setThumbnailCache(prev => ({ ...prev, [path]: data }))`) and
then `removeFromProcessing(path)`. -/
def completeOk (path data : String) (s : ThumbState) : ThumbState :=
  removeFromProcessing path
    { s with thumbnailCache := (path, data) :: s.thumbnailCache }

/-- Failed completion of `loadThumb` for `path`: the `catch` block only
logs, the `finally` block runs `removeFromProcessing(path)`; the cache and
the queue are untouched. -/
def completeErr (path : String) (s : ThumbState) : ThumbState :=
  removeFromProcessing path s

/-- Initial hook state: `useState<string[]>([])` twice and an empty cache. -/
def initThumb : ThumbState := ⟨[], [], []⟩

/-- One scheduler step: an `addToQueue` call, a run of the process-queue
effect, or a completion (success or failure) of an in-flight generation
call. -/
inductive ThumbStep : ThumbState → ThumbState → Prop where
  | enqueue (path : String) (s : ThumbState) : ThumbStep s (addToQueue path s)
  | process (s : ThumbState) : ThumbStep s (processQueue s)
  | completeOk (path data : String) (s : ThumbState) :
      path ∈ s.processing → ThumbStep s (completeOk path data s)
  | completeErr (path : String) (s : ThumbState) :
      path ∈ s.processing → ThumbStep s (completeErr path s)

/-- Reachable scheduler states. -/
inductive ThumbReach : ThumbState → Prop where
  | init : ThumbReach initThumb
  | step {s s' : ThumbState} : ThumbReach s → ThumbStep s s' → ThumbReach s'

/-! ### Duration probe queue (App component)

Embeds the `durationQueue` / `processingDuration` / `durationCache` hooks
and the duration-fetching effect. -/

structure DurState where
  durationQueue : List String
  processingDuration : Bool
  durationCache : List (String × Nat)
  deriving Repr, DecidableEq

/-- Number of outstanding duration probes: the `processingDuration` flag. -/
def durInFlight (d : DurState) : Nat :=
  if d.processingDuration then 1 else 0

/-- Start of the duration-fetching effect body: guarded by
`if (processingDuration || durationQueue.length === 0) return;`, then
`setProcessingDuration(true)`. -/
def startDur (d : DurState) : DurState :=
  if d.processingDuration ∨ d.durationQueue = [] then d
  else { d with processingDuration := true }

/-- End of one probe: optionally cache the result for the head path, then
`setDurationQueue(prev => prev.slice(1)); setProcessingDuration(false)`. -/
def finishDur (res : Option Nat) (d : DurState) : DurState :=
  let cache := match res, d.durationQueue.head? with
    | some n, some p => (p, n) :: d.durationCache
    | _, _ => d.durationCache
  { d with durationQueue := d.durationQueue.drop 1,
           processingDuration := false, durationCache := cache }

/-- `setDurationQueue(paths)` on folder open: the queue is replaced. -/
def setDurQueue (paths : List String) (d : DurState) : DurState :=
  { d with durationQueue := paths }

def initDur : DurState := ⟨[], false, []⟩

inductive DurStep : DurState → DurState → Prop where
  | start (d : DurState) : DurStep d (startDur d)
  | finish (res : Option Nat) (d : DurState) :
      d.processingDuration = true → DurStep d (finishDur res d)
  | setQueue (paths : List String) (d : DurState) : DurStep d (setDurQueue paths d)

inductive DurReach : DurState → Prop where
  | init : DurReach initDur
  | step {d d' : DurState} : DurReach d → DurStep d d' → DurReach d'

/-! ### Hover-preview debounce (ThumbnailCard component)

Embeds the per-card hover state (`isHovered`, `hoverTimeoutRef`,
`previewCache[path]`, `previewError`) and the hover-preview effect. The
effect re-runs whenever `isHovered`, `preview` or `previewError` changes;
React first runs the previous run's cleanup, which clears any pending
timer, then the body either schedules a new 600 ms timer (when hovered,
no cached preview and no error) or leaves no timer.

The `generate_preview` invoke is asynchronous: a timer that reaches its
deadline issues the call (the call becomes *pending*), and only when the
invoke later resolves is the preview cached (success) or `previewError`
set (failure) — at which point the effect re-runs and clears any timer
scheduled in the meantime. While a call is pending neither suppression
flag is set, so the timer callback, which re-checks nothing, can issue a
duplicate call.

`deadline` is the absolute fire time of the pending timer (if any);
`pending` counts issued but unresolved invokes; `calls` counts issued
`generate_preview` invocations. -/

structure PrevState where
  hovered : Bool
  deadline : Option Nat
  preview : Option String
  previewError : Bool
  pending : Nat
  calls : Nat
  deriving Repr, DecidableEq

/-- `const delay = 600` in the `setTimeout` call of the hover effect. -/
def previewDelay : Nat := 600

/-- One run of the hover-preview effect at time `now` (the previous run's
cleanup has already cleared any pending timer):
`if (isHovered && !preview && !previewError) setTimeout(..., 600) else` no
timer remains. -/
def runPreviewEffect (now : Nat) (s : PrevState) : PrevState :=
  if s.hovered ∧ s.preview = none ∧ s.previewError = false then
    { s with deadline := some (now + previewDelay) }
  else
    { s with deadline := none }

/-- If a pending timer's deadline has passed by time `t`, it fires: the
callback issues one `generate_preview` invoke with no further guard; the
invoke is now outstanding and its result arrives later. -/
def fireIfDue (t : Nat) (s : PrevState) : PrevState :=
  match s.deadline with
  | none => s
  | some d =>
    if d ≤ t then
      { s with deadline := none, calls := s.calls + 1, pending := s.pending + 1 }
    else s

/-- Resolution of one outstanding `generate_preview` invoke at time `t`:
on success the result is written to the preview cache, on failure
`setPreviewError(true)` runs; either state change re-runs the hover
effect, whose cleanup clears any timer scheduled in the meantime and
whose now-false condition schedules no new one. -/
def resolveInvoke (ok : Bool) (t : Nat) (s : PrevState) : PrevState :=
  if s.pending > 0 then
    if ok then
      runPreviewEffect t { s with pending := s.pending - 1, preview := some "previewData" }
    else
      runPreviewEffect t { s with pending := s.pending - 1, previewError := true }
  else s

inductive HoverEv where
  | enter
  | leave
  | tick
  | resolve (ok : Bool)
  deriving Repr, DecidableEq

structure TimedEv where
  t : Nat
  ev : HoverEv
  deriving Repr, DecidableEq

/-- Handle one timed event: first let a due timer fire, then apply the
event (`onMouseEnter` / `onMouseLeave` flips `isHovered`, which re-runs
the effect; `resolve ok` is the asynchronous return of an outstanding
invoke; `tick` is the mere passage of time). -/
def handleEv (s : PrevState) (e : TimedEv) : PrevState :=
  let s' := fireIfDue e.t s
  match e.ev with
  | .enter => runPreviewEffect e.t { s' with hovered := true }
  | .leave => runPreviewEffect e.t { s' with hovered := false }
  | .tick => s'
  | .resolve ok => resolveInvoke ok e.t s'

def runEvents (evs : List TimedEv) (s : PrevState) : PrevState :=
  evs.foldl handleEv s

/-- Card state before any hover: not hovered, no timer, no cached preview,
no error, no outstanding invoke; `c` previously issued calls. -/
def idleCard (c : Nat) : PrevState := ⟨false, none, none, false, 0, c⟩

/-- Whether the `loadThumb` effect issues a `generate_thumbnail` call:
`if (shouldLoad && !hasRequested && !thumb)` where
`thumb = thumbnailCache[path] || null`. -/
def loadThumbIssues (cached : Option String) (shouldLoad hasRequested : Bool) : Bool :=
  shouldLoad && !hasRequested && cached.isNone

/-! ### Library navigation (App component) -/

structure VideoEntry where
  name : String
  path : String
  size : Int
  created : Int
  deriving Repr, DecidableEq

/-- JavaScript `Array.prototype.findIndex`: index of the first match, or
`-1` when none matches. -/
def findIndexJS (pred : VideoEntry → Bool) (l : List VideoEntry) : Int :=
  match l.findIdx? pred with
  | some i => (i : Int)
  | none => -1

/-- `playPreviousVideo` over the sorted library: returns the path passed to
`handlePlay`, or `none` when the function returns without issuing any
playback call or state change. -/
def playPreviousVideo (sortedLibrary : List VideoEntry) (currentFile : Option String) :
    Option String :=
  if sortedLibrary.length = 0 then none
  else
    let currentPath := currentFile.getD ""
    let currentIndex := findIndexJS (fun v => v.path == currentPath) sortedLibrary
    if currentIndex ≤ 0 then none
    else (sortedLibrary[(currentIndex - 1).toNat]?).map VideoEntry.path

/-- `playNextVideo` over the sorted library: returns the path passed to
`handlePlay`, or `none` when the function returns without issuing any
playback call or state change. -/
def playNextVideo (sortedLibrary : List VideoEntry) (currentFile : Option String) :
    Option String :=
  if sortedLibrary.length = 0 then none
  else
    let currentPath := currentFile.getD ""
    let currentIndex := findIndexJS (fun v => v.path == currentPath) sortedLibrary
    if currentIndex = -1 ∨ currentIndex ≥ (sortedLibrary.length : Int) - 1 then none
    else (sortedLibrary[(currentIndex + 1).toNat]?).map VideoEntry.path

/-! ### Volume handlers (App component) -/

/-- `handleVolume`: `Math.max(0, Math.min(300, newVolume))` is stored and
sent to `set_volume`. -/
def handleVolume (newVolume : Int) : Int :=
  max 0 (min 300 newVolume)

/-- `handleVolumeChange`: the functional update applies the same clamp to
`prev + delta`. -/
def handleVolumeChange (prev delta : Int) : Int :=
  max 0 (min 300 (prev + delta))

/-! ### Scheduler invariants -/

/-- Joint invariant of the thumbnail scheduler: the pending queue has no
duplicates, no queued path is simultaneously in flight, and the in-flight
set respects the concurrency bound. -/
def ThumbInv (s : ThumbState) : Prop :=
  s.thumbQueue.Nodup ∧ (∀ p, p ∈ s.thumbQueue → p ∉ s.processing) ∧
    s.processing.length ≤ maxConcurrency

lemma thumbInv_init : ThumbInv initThumb := by
  refine ⟨List.nodup_nil, ?_, ?_⟩ <;> simp [initThumb, maxConcurrency]

lemma thumbInv_addToQueue {s : ThumbState} (h : ThumbInv s) (path : String) :
    ThumbInv (addToQueue path s) := by
  obtain ⟨h1, h2, h3⟩ := h
  unfold addToQueue
  split
  · exact ⟨h1, h2, h3⟩
  · rename_i hni
    push_neg at hni
    refine ⟨?_, ?_, h3⟩
    · rw [List.nodup_append]
      refine ⟨h1, List.nodup_singleton path, fun a ha hmem => ?_⟩
      rw [List.mem_singleton.mp hmem] at ha
      exact hni.1 ha
    · intro p hp
      rcases List.mem_append.mp hp with hq | hs
      · exact h2 p hq
      · simpa using (List.mem_singleton.mp hs) ▸ hni.2

lemma thumbInv_processQueue {s : ThumbState} (h : ThumbInv s) : ThumbInv (processQueue s) := by
  obtain ⟨h1, h2, h3⟩ := h
  unfold processQueue
  split
  · exact ⟨h1, h2, h3⟩
  · rename_i nextPath rest hq
    split
    · rename_i hlen
      rw [hq] at h1 h2
      refine ⟨h1.of_cons, ?_, ?_⟩
      · intro p hp hmem
        rcases List.mem_append.mp hmem with hs | hone
        · exact h2 p (List.mem_cons_of_mem _ hp) hs
        · rw [List.mem_singleton.mp hone] at hp
          exact (List.nodup_cons.mp h1).1 hp
      · simpa using hlen
    · exact ⟨h1, h2, h3⟩

lemma thumbInv_remove {s : ThumbState} (h : ThumbInv s) (path : String) :
    ThumbInv (removeFromProcessing path s) := by
  obtain ⟨h1, h2, h3⟩ := h
  refine ⟨h1, ?_, ?_⟩
  · intro p hp hmem
    exact h2 p hp (List.mem_of_mem_filter hmem)
  · exact le_trans (List.length_filter_le _ _) h3

lemma thumbInv_step {s s' : ThumbState} (h : ThumbInv s) (hs : ThumbStep s s') :
    ThumbInv s' := by
  cases hs with
  | enqueue path s => exact thumbInv_addToQueue h path
  | process s => exact thumbInv_processQueue h
  | completeOk path data s hmem =>
    obtain ⟨h1, h2, h3⟩ := h
    exact thumbInv_remove ⟨h1, h2, h3⟩ path
  | completeErr path s hmem => exact thumbInv_remove h path

lemma thumbReach_inv {s : ThumbState} (h : ThumbReach s) : ThumbInv s := by
  induction h with
  | init => exact thumbInv_init
  | step _ hs ih => exact thumbInv_step ih hs

/-! ### Claim theorems -/

/-- C1: for every reachable state of the thumbnail scheduler the in-flight
set `processing` has size at most `maxConcurrency` (8), and for every
reachable state of the duration probe queue at most one probe is
outstanding (the `processingDuration` flag counts at most 1), regardless of
how many paths were enqueued. -/
theorem inflight_bounded :
    (∀ s, ThumbReach s → s.processing.length ≤ maxConcurrency) ∧
    (∀ d, DurReach d → durInFlight d ≤ 1) := by
  constructor
  · intro s hs
    exact (thumbReach_inv hs).2.2
  · intro d _
    unfold durInFlight
    split <;> simp

/-- Witness for C1 at the concrete reachable states reached by one enqueue
and one queue replacement from the initial states. -/
theorem inflight_bounded_witness :
    (addToQueue "a" initThumb).processing.length ≤ maxConcurrency ∧
    durInFlight (setDurQueue ["a"] initDur) ≤ 1 :=
  ⟨inflight_bounded.1 _ (ThumbReach.step ThumbReach.init (ThumbStep.enqueue "a" _)),
   inflight_bounded.2 _ (DurReach.step DurReach.init (DurStep.setQueue ["a"] _))⟩

/-- C2: in every reachable scheduler state a path is in at most one of the
pending queue and the in-flight set; `addToQueue` refuses a path that is
already queued or in flight, and the process-queue effect moves exactly the
head of the queue into the in-flight set in one step. -/
theorem queue_inflight_exclusive :
    ∀ s, ThumbReach s →
      (∀ p, ¬(p ∈ s.thumbQueue ∧ p ∈ s.processing)) ∧
      (∀ p, p ∈ s.thumbQueue ∨ p ∈ s.processing → addToQueue p s = s) ∧
      (∀ p rest, s.thumbQueue = p :: rest → s.processing.length < maxConcurrency →
        processQueue s = { s with thumbQueue := rest, processing := s.processing ++ [p] }) := by
  intro s hs
  obtain ⟨h1, h2, h3⟩ := thumbReach_inv hs
  refine ⟨fun p hp => h2 p hp.1 hp.2, ?_, ?_⟩
  · intro p hp
    unfold addToQueue
    exact if_pos hp
  · intro p rest hq hlen
    unfold processQueue
    rw [hq]
    exact if_pos hlen

/-- Witness for C2 at the reachable state with `"a"` pending. -/
theorem queue_inflight_exclusive_witness :
    ¬("a" ∈ (addToQueue "a" initThumb).thumbQueue ∧
       "a" ∈ (addToQueue "a" initThumb).processing) :=
  ((queue_inflight_exclusive _
      (ThumbReach.step ThumbReach.init (ThumbStep.enqueue "a" _))).1 "a")

lemma processQueue_cap {s : ThumbState}
    (h : ¬ s.processing.length < maxConcurrency) : processQueue s = s := by
  unfold processQueue
  split
  · rfl
  · exact if_neg h

lemma processQueue_nil {s : ThumbState} (h : s.thumbQueue = []) : processQueue s = s := by
  unfold processQueue
  split
  · rfl
  · rename_i p rest hq
    rw [h] at hq
    exact absurd hq (by simp)

/-- Full characterization of iterating the process-queue effect `n` times
with no other interleaved step: the first
`min n (maxConcurrency - |processing|)` queued paths move, in queue order,
from the head of the queue to the tail of the in-flight list. -/
lemma processQueue_iterate_spec :
    ∀ (n : Nat) (s : ThumbState),
      (processQueue^[n] s).processing
          = s.processing ++ s.thumbQueue.take (min n (maxConcurrency - s.processing.length)) ∧
      (processQueue^[n] s).thumbQueue
          = s.thumbQueue.drop (min n (maxConcurrency - s.processing.length)) ∧
      (processQueue^[n] s).thumbnailCache = s.thumbnailCache := by
  intro n
  induction n with
  | zero => intro s; simp
  | succ n ih =>
    intro s
    rw [Function.iterate_succ_apply]
    by_cases hcap : s.processing.length < maxConcurrency
    · match hq : s.thumbQueue with
      | [] =>
        rw [processQueue_nil hq]
        rcases ih s with ⟨ih1, ih2, ih3⟩
        rw [hq] at ih1 ih2
        refine ⟨?_, ?_, ih3⟩
        · rw [ih1]; simp
        · rw [ih2]; simp
      | p :: rest =>
        have hstep : processQueue s
            = ⟨rest, s.processing ++ [p], s.thumbnailCache⟩ := by
          unfold processQueue
          rw [hq]
          exact if_pos hcap
        have ih1 : (processQueue^[n]
              (⟨rest, s.processing ++ [p], s.thumbnailCache⟩ : ThumbState)).processing
            = (s.processing ++ [p])
              ++ List.take (min n (maxConcurrency - (s.processing.length + 1))) rest := by
          simpa using (ih ⟨rest, s.processing ++ [p], s.thumbnailCache⟩).1
        have ih2 : (processQueue^[n]
              (⟨rest, s.processing ++ [p], s.thumbnailCache⟩ : ThumbState)).thumbQueue
            = List.drop (min n (maxConcurrency - (s.processing.length + 1))) rest := by
          simpa using (ih ⟨rest, s.processing ++ [p], s.thumbnailCache⟩).2.1
        have ih3 : (processQueue^[n]
              (⟨rest, s.processing ++ [p], s.thumbnailCache⟩ : ThumbState)).thumbnailCache
            = s.thumbnailCache := by
          simpa using (ih ⟨rest, s.processing ++ [p], s.thumbnailCache⟩).2.2
        have hmin : min (n + 1) (maxConcurrency - s.processing.length)
            = min n (maxConcurrency - (s.processing.length + 1)) + 1 := by omega
        rw [hstep]
        refine ⟨?_, ?_, ih3⟩
        · rw [ih1, hmin, List.take_succ_cons]
          simp [List.append_assoc]
        · rw [ih2, hmin, List.drop_succ_cons]
    · rw [processQueue_cap hcap]
      rcases ih s with ⟨ih1, ih2, ih3⟩
      have hz : maxConcurrency - s.processing.length = 0 := by omega
      rw [hz] at ih1 ih2
      rw [hz]
      simp only [Nat.min_zero, List.take_zero, List.append_nil, List.drop_zero] at ih1 ih2 ⊢
      exact ⟨ih1, ih2, ih3⟩

/-- C5: admission is level-triggered and idempotent — iterating the
process-queue effect any number of times with no other state change admits
at most `maxConcurrency - |processing|` additional paths (0 when already at
or over capacity), and a single run is a no-op whenever the in-flight set
is at capacity or the queue is empty. -/
theorem admission_idempotent_bounded :
    ∀ (n : Nat) (s : ThumbState),
      (processQueue^[n] s).processing.length - s.processing.length
          ≤ maxConcurrency - s.processing.length ∧
      (maxConcurrency ≤ s.processing.length ∨ s.thumbQueue = [] → processQueue s = s) := by
  intro n s
  constructor
  · rcases processQueue_iterate_spec n s with ⟨h1, -, -⟩
    have := List.length_take_le (min n (maxConcurrency - s.processing.length)) s.thumbQueue
    rw [h1]
    simp only [List.length_append]
    omega
  · rintro (hcap | hq)
    · exact processQueue_cap (by omega)
    · exact processQueue_nil hq

/-- Witness for C5: two redundant processQueue runs on the empty initial state
processQueue nothing, and the single run is a no-op on the empty queue. -/
theorem admission_idempotent_bounded_witness :
    (processQueue^[2] initThumb).processing.length - initThumb.processing.length
        ≤ maxConcurrency - initThumb.processing.length ∧
    processQueue initThumb = initThumb :=
  ⟨(admission_idempotent_bounded 2 initThumb).1,
   (admission_idempotent_bounded 2 initThumb).2 (Or.inr rfl)⟩

/-- C6: admission is FIFO — `addToQueue` appends a fresh path at the tail,
and `n` processQueue runs take exactly the first
`min n (maxConcurrency - |processing|)` paths off the head of the queue,
in queue order, with no reordering. -/
theorem fifo_admission :
    ∀ (s : ThumbState) (p : String) (n : Nat),
      (p ∉ s.thumbQueue → p ∉ s.processing →
        (addToQueue p s).thumbQueue = s.thumbQueue ++ [p]) ∧
      (processQueue^[n] s).processing
          = s.processing ++ s.thumbQueue.take (min n (maxConcurrency - s.processing.length)) ∧
      (processQueue^[n] s).thumbQueue
          = s.thumbQueue.drop (min n (maxConcurrency - s.processing.length)) := by
  intro s p n
  refine ⟨?_, (processQueue_iterate_spec n s).1, (processQueue_iterate_spec n s).2.1⟩
  intro hq hp
  unfold addToQueue
  rw [if_neg (by tauto)]

/-- Witness for C6: enqueueing `"a"` into the empty initial state appends
it at the tail. -/
theorem fifo_admission_witness :
    (addToQueue "a" initThumb).thumbQueue = initThumb.thumbQueue ++ ["a"] :=
  (fifo_admission initThumb "a" 0).1 (by simp [initThumb]) (by simp [initThumb])

/-- C3 counterexample: in the reachable state where `"a"` has been admitted
(so it is in flight with an empty queue), calling `addToQueue "a"` twice
leaves `"a"` appearing zero times in the pending queue, not exactly once. -/
theorem double_enqueue_cex :
    ThumbReach (processQueue (addToQueue "a" initThumb)) ∧
    ¬((addToQueue "a" (addToQueue "a" (processQueue (addToQueue "a" initThumb)))).thumbQueue.count "a"
        = 1) :=
  ⟨ThumbReach.step (ThumbReach.step ThumbReach.init (ThumbStep.enqueue "a" _))
      (ThumbStep.process _),
   by decide⟩

/-- C3 (amended): in every reachable state, calling `addToQueue p` twice in
succession leaves `p` appearing exactly once in the pending queue provided
`p` is not currently in flight (if it is, `p` appears zero times); and
enqueuing a path that is already queued or already in flight leaves the
state unchanged. -/
theorem double_enqueue_once :
    ∀ s p, ThumbReach s →
      (p ∉ s.processing →
        (addToQueue p (addToQueue p s)).thumbQueue.count p = 1) ∧
      (p ∈ s.thumbQueue ∨ p ∈ s.processing → addToQueue p s = s) := by
  intro s p hs
  obtain ⟨h1, h2, h3⟩ := thumbReach_inv hs
  have hnoop : ∀ t : ThumbState, p ∈ t.thumbQueue ∨ p ∈ t.processing →
      addToQueue p t = t := by
    intro t ht
    unfold addToQueue
    exact if_pos ht
  refine ⟨?_, hnoop s⟩
  intro hnp
  by_cases hq : p ∈ s.thumbQueue
  · rw [hnoop s (Or.inl hq), hnoop s (Or.inl hq)]
    exact List.count_eq_one_of_mem h1 hq
  · have hfst : addToQueue p s
        = { s with thumbQueue := s.thumbQueue ++ [p] } := by
      unfold addToQueue
      rw [if_neg (by tauto)]
    have hsnd : addToQueue p (addToQueue p s) = addToQueue p s := by
      apply hnoop
      rw [hfst]
      simp
    rw [hsnd, hfst]
    simp [List.count_append, List.count_eq_zero_of_not_mem hq]

/-- Witness for C3 (amended) at the initial state. -/
theorem double_enqueue_once_witness :
    (addToQueue "a" (addToQueue "a" initThumb)).thumbQueue.count "a" = 1 :=
  (double_enqueue_once initThumb "a" ThumbReach.init).1 (by simp [initThumb])

/-- C4: for a path that is already a key of the thumbnail cache, the mount
enqueue is a no-op (nothing appended, nothing admitted, state unchanged)
and the `loadThumb` effect never issues a `generate_thumbnail` call for it,
whatever `shouldLoad` and `hasRequested` are. -/
theorem cached_enqueue_noop :
    ∀ (s : ThumbState) (path data : String),
      s.thumbnailCache.lookup path = some data →
      enqueueOnMount path s = s ∧
      (∀ shouldLoad hasRequested,
        loadThumbIssues (s.thumbnailCache.lookup path) shouldLoad hasRequested = false) := by
  intro s path data h
  constructor
  · unfold enqueueOnMount
    rw [h]
    rfl
  · intro shouldLoad hasRequested
    rw [h]
    simp [loadThumbIssues]

/-- Witness for C4 at a state whose cache holds `"a"`. -/
theorem cached_enqueue_noop_witness :
    enqueueOnMount "a" ⟨[], [], [("a", "d")]⟩ = ⟨[], [], [("a", "d")]⟩ ∧
    loadThumbIssues ((⟨[], [], [("a", "d")]⟩ : ThumbState).thumbnailCache.lookup "a")
      true false = false :=
  ⟨(cached_enqueue_noop ⟨[], [], [("a", "d")]⟩ "a" "d" rfl).1,
   (cached_enqueue_noop ⟨[], [], [("a", "d")]⟩ "a" "d" rfl).2 true false⟩

lemma length_filter_ne_lt {l : List String} {p : String} (h : p ∈ l) :
    (l.filter (fun x => x ≠ p)).length < l.length := by
  induction l with
  | nil => simp at h
  | cons a t ih =>
    by_cases hap : a = p
    · subst hap
      have hf : (a :: t).filter (fun x => x ≠ a) = t.filter (fun x => x ≠ a) := by
        simp [List.filter_cons]
      rw [hf]
      calc (t.filter (fun x => x ≠ a)).length ≤ t.length := List.length_filter_le _ _
        _ < (a :: t).length := by simp
    · have hmem : p ∈ t := by
        rcases List.mem_cons.mp h with h' | h'
        · exact absurd h'.symm hap
        · exact h'
      have hf : (a :: t).filter (fun x => x ≠ p) = a :: t.filter (fun x => x ≠ p) := by
        simp [List.filter_cons, hap]
      rw [hf]
      simpa using Nat.succ_lt_succ (ih hmem)

/-- The single failure-completion step in isolation: `path` is removed
from the in-flight set, the thumbnail cache and the pending queue are
untouched, and the freed slot lets the next queued path be admitted. (The
session-level claim about failures is settled by the bug demonstration
below: subsequent renders re-enqueue the failed path.) -/
theorem error_completion :
    ∀ (s : ThumbState) (path : String),
      (completeErr path s).thumbnailCache = s.thumbnailCache ∧
      (completeErr path s).thumbQueue = s.thumbQueue ∧
      path ∉ (completeErr path s).processing ∧
      (path ∈ s.processing → s.processing.length ≤ maxConcurrency →
        ∀ q rest, s.thumbQueue = q :: rest →
          processQueue (completeErr path s)
            = { completeErr path s with
                thumbQueue := rest,
                processing := (completeErr path s).processing ++ [q] }) := by
  intro s path
  refine ⟨rfl, rfl, ?_, ?_⟩
  · intro hmem
    have := List.of_mem_filter (p := fun x => x ≠ path) hmem
    simp at this
  · intro hin hle q rest hq
    have hlt : (completeErr path s).processing.length < maxConcurrency :=
      lt_of_lt_of_le (length_filter_ne_lt hin) hle
    unfold processQueue
    have hq' : (completeErr path s).thumbQueue = q :: rest := hq
    rw [hq']
    exact if_pos hlt

/-- `error_completion` at the concrete state where the in-flight `"a"`
fails with `"b"` pending. -/
theorem error_completion_witness :
    processQueue (completeErr "a" ⟨["b"], ["a"], []⟩)
      = { completeErr "a" (⟨["b"], ["a"], []⟩ : ThumbState) with
          thumbQueue := [],
          processing := (completeErr "a" (⟨["b"], ["a"], []⟩ : ThumbState)).processing
            ++ ["b"] } :=
  (error_completion ⟨["b"], ["a"], []⟩ "a").2.2.2 (by simp)
    (by simp [maxConcurrency]) "b" [] rfl

/-- C8 (code bug): the failure of a generation call is not recorded
anywhere — the cache stays without an entry and no error flag exists — so
on the very next render (triggered by the failure's own
`removeFromProcessing` state update, since the mount effect depends on the
non-memoized `addToQueue` identity) the `ThumbnailCard` mount effect finds
`!thumbnailCache[path]` still true and re-enqueues the failed path; the
process-queue effect then re-admits it, yet `loadThumb` never runs again
(`hasRequested` is already `true`), so the path stays in `processing`
forever, permanently occupying one of the 8 slots. Demonstrated at the
failing input: `"a"` admitted from the initial state, failing, then the
mount effect re-running. -/
theorem error_reenqueue_bug :
    ("a" ∈ (enqueueOnMount "a"
        (completeErr "a" (processQueue (addToQueue "a" initThumb)))).thumbQueue) ∧
    ("a" ∈ (processQueue (enqueueOnMount "a"
        (completeErr "a" (processQueue (addToQueue "a" initThumb))))).processing) ∧
    loadThumbIssues
        ((completeErr "a" (processQueue (addToQueue "a" initThumb))).thumbnailCache.lookup "a")
        true true = false := by
  decide

lemma handleEv_enter (t : Nat) (s : PrevState) :
    handleEv s ⟨t, .enter⟩
      = runPreviewEffect t { fireIfDue t s with hovered := true } := rfl

lemma handleEv_leave (t : Nat) (s : PrevState) :
    handleEv s ⟨t, .leave⟩
      = runPreviewEffect t { fireIfDue t s with hovered := false } := rfl

lemma handleEv_tick (t : Nat) (s : PrevState) :
    handleEv s ⟨t, .tick⟩ = fireIfDue t s := rfl

lemma handleEv_resolve (ok : Bool) (t : Nat) (s : PrevState) :
    handleEv s ⟨t, .resolve ok⟩ = resolveInvoke ok t (fireIfDue t s) := rfl

lemma fireIfDue_none (t : Nat) (s : PrevState) (h : s.deadline = none) :
    fireIfDue t s = s := by
  unfold fireIfDue
  rw [h]

/-- Once no timer is pending, no invoke is outstanding, and the card has
either a cached preview or its error flag set, no further event ever
issues another call. -/
lemma runEvents_suppressed :
    ∀ (evs : List TimedEv) (s : PrevState), s.deadline = none → s.pending = 0 →
      (s.preview ≠ none ∨ s.previewError = true) →
      (runEvents evs s).calls = s.calls := by
  intro evs
  induction evs with
  | nil => intro s _ _ _; rfl
  | cons e evs ih =>
    intro s h1 h0 h2
    obtain ⟨et, ev⟩ := e
    have hR : ∀ b, runPreviewEffect et { s with hovered := b }
        = { s with hovered := b, deadline := none } := by
      intro b
      unfold runPreviewEffect
      rw [if_neg]
      rintro ⟨-, hp, he⟩
      rcases h2 with h2 | h2
      · exact h2 hp
      · rw [h2] at he; cases he
    cases ev with
    | enter =>
      show (runEvents evs (handleEv s ⟨et, .enter⟩)).calls = s.calls
      rw [handleEv_enter, fireIfDue_none et s h1, hR true]
      exact ih _ rfl h0 h2
    | leave =>
      show (runEvents evs (handleEv s ⟨et, .leave⟩)).calls = s.calls
      rw [handleEv_leave, fireIfDue_none et s h1, hR false]
      exact ih _ rfl h0 h2
    | tick =>
      show (runEvents evs (handleEv s ⟨et, .tick⟩)).calls = s.calls
      rw [handleEv_tick, fireIfDue_none et s h1]
      exact ih s h1 h0 h2
    | resolve ok =>
      show (runEvents evs (handleEv s ⟨et, .resolve ok⟩)).calls = s.calls
      rw [handleEv_resolve, fireIfDue_none et s h1]
      have hres : resolveInvoke ok et s = s := by
        unfold resolveInvoke
        rw [if_neg (by omega)]
      rw [hres]
      exact ih s h1 h0 h2

/-- C7 counterexample: the `generate_preview` invoke is asynchronous and
sets its suppression state (cached preview / error flag) only when it
resolves, and the timer callback re-checks nothing. On the trace
enter@0, fire@600, leave@700, re-enter@800, fire@1400 with the first
invoke still unresolved, the card issues two `generate_preview` calls
even though the hover persisted past the delay with no cached preview
and no error flag — not exactly one. -/
theorem preview_pending_window_cex :
    (runEvents [⟨0, .enter⟩, ⟨600, .tick⟩, ⟨700, .leave⟩, ⟨800, .enter⟩, ⟨1400, .tick⟩]
        (idleCard 0)).calls = 2 ∧
    (runEvents [⟨0, .enter⟩, ⟨600, .tick⟩, ⟨700, .leave⟩, ⟨800, .enter⟩, ⟨1400, .tick⟩]
        (idleCard 0)).preview = none ∧
    (runEvents [⟨0, .enter⟩, ⟨600, .tick⟩, ⟨700, .leave⟩, ⟨800, .enter⟩, ⟨1400, .tick⟩]
        (idleCard 0)).previewError = false := by
  decide

/-- C7 (amended): a hover-preview request is never issued when the pointer
leaves strictly before the 600 ms debounce elapses (the pending timer is
cancelled and the card returns exactly to its idle state); a hover that
persists past the delay while no preview is cached and the error flag is
clear issues exactly one `generate_preview` call at fire time; and once
that call resolves (caching the preview on success or setting the error
flag on failure), no further call is ever issued across any continuation
of the trace. Only while the call is still pending can a leave/re-hover
issue an additional duplicate call. -/
theorem preview_debounce_amended :
    ∀ (c t t' t'' : Nat) (ok : Bool) (rest : List TimedEv),
      (t' < t + previewDelay →
        runEvents [⟨t, .enter⟩, ⟨t', .leave⟩] (idleCard c) = idleCard c) ∧
      (t + previewDelay ≤ t' →
        (runEvents [⟨t, .enter⟩, ⟨t', .tick⟩] (idleCard c)).calls = c + 1) ∧
      (t + previewDelay ≤ t' →
        (runEvents (⟨t, .enter⟩ :: ⟨t', .tick⟩ :: ⟨t'', .resolve ok⟩ :: rest)
            (idleCard c)).calls = c + 1) := by
  intro c t t' t'' ok rest
  have henter : handleEv (idleCard c) ⟨t, .enter⟩
      = ⟨true, some (t + previewDelay), none, false, 0, c⟩ := by
    rw [handleEv_enter, fireIfDue_none t _ rfl]
    simp [runPreviewEffect, idleCard]
  refine ⟨?_, ?_, ?_⟩
  · intro h
    show handleEv (handleEv (idleCard c) ⟨t, .enter⟩) ⟨t', .leave⟩ = idleCard c
    rw [henter, handleEv_leave]
    have hne : ¬ (t + previewDelay ≤ t') := by omega
    have hf : fireIfDue t' (⟨true, some (t + previewDelay), none, false, 0, c⟩ : PrevState)
        = ⟨true, some (t + previewDelay), none, false, 0, c⟩ := by
      unfold fireIfDue
      simp only [if_neg hne]
    rw [hf]
    simp [runPreviewEffect, idleCard]
  · intro h
    show (handleEv (handleEv (idleCard c) ⟨t, .enter⟩) ⟨t', .tick⟩).calls = c + 1
    rw [henter, handleEv_tick]
    have hf : fireIfDue t' (⟨true, some (t + previewDelay), none, false, 0, c⟩ : PrevState)
        = ⟨true, none, none, false, 1, c + 1⟩ := by
      unfold fireIfDue
      simp only [if_pos h]
    rw [hf]
  · intro h
    show (runEvents rest (handleEv (handleEv (handleEv (idleCard c) ⟨t, .enter⟩)
        ⟨t', .tick⟩) ⟨t'', .resolve ok⟩)).calls = c + 1
    rw [henter, handleEv_tick]
    have hf : fireIfDue t' (⟨true, some (t + previewDelay), none, false, 0, c⟩ : PrevState)
        = ⟨true, none, none, false, 1, c + 1⟩ := by
      unfold fireIfDue
      simp only [if_pos h]
    rw [hf, handleEv_resolve, fireIfDue_none t'' _ rfl]
    have hres : resolveInvoke ok t''
          (⟨true, none, none, false, 1, c + 1⟩ : PrevState)
        = if ok then ⟨true, none, some "previewData", false, 0, c + 1⟩
          else ⟨true, none, none, true, 0, c + 1⟩ := by
      unfold resolveInvoke
      rw [if_pos (show (0 : Nat) < 1 from Nat.zero_lt_one)]
      cases ok
      · simp [runPreviewEffect]
      · simp [runPreviewEffect]
    rw [hres]
    cases ok
    · rw [if_neg (by simp)]
      exact runEvents_suppressed rest _ rfl rfl (Or.inr rfl)
    · rw [if_pos rfl]
      exact runEvents_suppressed rest _ rfl rfl (Or.inl (by simp))

/-- Witness for C7 (amended): leaving at 599 ms issues nothing and
restores the idle card; holding until 600 ms issues exactly one call,
still exactly one after the invoke resolves at 601 ms. -/
theorem preview_debounce_amended_witness :
    runEvents [⟨0, .enter⟩, ⟨599, .leave⟩] (idleCard 0) = idleCard 0 ∧
    (runEvents [⟨0, .enter⟩, ⟨600, .tick⟩] (idleCard 0)).calls = 0 + 1 ∧
    (runEvents [⟨0, .enter⟩, ⟨600, .tick⟩, ⟨601, .resolve true⟩] (idleCard 0)).calls
      = 0 + 1 :=
  ⟨(preview_debounce_amended 0 0 599 601 true []).1 (by decide),
   (preview_debounce_amended 0 0 600 601 true []).2.1 (by decide),
   (preview_debounce_amended 0 0 600 601 true []).2.2 (by decide)⟩

/-- C9: every requested volume — direct value or delta applied to the
previous volume — is clamped to `[0, 300]` before being stored and sent to
`set_volume`, and the delta handler applies the same clamp as
`handleVolume`. -/
theorem volume_clamped (v prev delta : Int) :
    0 ≤ handleVolume v ∧ handleVolume v ≤ 300 ∧
    0 ≤ handleVolumeChange prev delta ∧ handleVolumeChange prev delta ≤ 300 ∧
    handleVolumeChange prev delta = handleVolume (prev + delta) := by
  unfold handleVolume handleVolumeChange
  refine ⟨?_, ?_, ?_, ?_, rfl⟩ <;> omega

lemma findIndexJS_some {pred : VideoEntry → Bool} {l : List VideoEntry} {i : Nat}
    (h : l.findIdx? pred = some i) : findIndexJS pred l = (i : Int) := by
  unfold findIndexJS
  rw [h]

lemma findIndexJS_none {pred : VideoEntry → Bool} {l : List VideoEntry}
    (h : l.findIdx? pred = none) : findIndexJS pred l = -1 := by
  unfold findIndexJS
  rw [h]

/-- When the entry paths are distinct (as for files scanned from one
folder), the first index matching the last entry's path is the last
index. -/
lemma findIdx_last_aux (v : VideoEntry) :
    ∀ (l : List VideoEntry), (l.map VideoEntry.path).Nodup → l.getLast? = some v →
      ∀ i : Nat, l.findIdx? (fun x => x.path == v.path) i = some (i + l.length - 1) := by
  intro l
  induction l with
  | nil => intro _ h; cases h
  | cons a t ih =>
    intro hn hl i
    match t with
    | [] =>
      have hv : a = v := by
        simpa using hl
      subst hv
      simp [List.findIdx?_cons]
    | b :: t' =>
      have hl' : (b :: t').getLast? = some v := by
        rwa [List.getLast?_cons_cons] at hl
      have hvmem : v ∈ b :: t' := List.mem_of_getLast?_eq_some hl'
      rw [List.map_cons, List.nodup_cons] at hn
      have hne : (a.path == v.path) = false := by
        have hvp : v.path ∈ (b :: t').map VideoEntry.path := List.mem_map_of_mem _ hvmem
        simp only [beq_eq_false_iff_ne, ne_eq]
        intro heq
        rw [heq] at hn
        exact hn.1 hvp
      rw [List.findIdx?_cons, hne]
      simp only [Bool.false_eq_true, if_false]
      rw [ih hn.2 hl' (i + 1)]
      congr 1
      simp only [List.length_cons]
      omega

/-- C10: library navigation never wraps around. Over any library of
distinct file paths: both directions are no-ops on the empty library and
when the current file is not in the library; `playPreviousVideo` is a
no-op when the current file is the first entry; `playNextVideo` is a no-op
when the current file is the last entry. A `none` result is the early
`return`: no playback call is issued and no state changes. -/
theorem navigation_no_wrap :
    ∀ (lib : List VideoEntry) (cur : Option String),
      (lib.map VideoEntry.path).Nodup →
      (lib = [] → playPreviousVideo lib cur = none ∧ playNextVideo lib cur = none) ∧
      ((∀ v ∈ lib, v.path ≠ cur.getD "") →
        playPreviousVideo lib cur = none ∧ playNextVideo lib cur = none) ∧
      (∀ hd tl, lib = hd :: tl → cur = some hd.path → playPreviousVideo lib cur = none) ∧
      (∀ v, lib.getLast? = some v → cur = some v.path → playNextVideo lib cur = none) := by
  intro lib cur hnodup
  refine ⟨?_, ?_, ?_, ?_⟩
  · rintro rfl
    constructor <;> rfl
  · intro habs
    have hnone : lib.findIdx? (fun v => v.path == cur.getD "") = none := by
      rw [List.findIdx?_eq_none_iff]
      intro x hx
      simpa using habs x hx
    have hidx := findIndexJS_none hnone
    constructor
    · simp only [playPreviousVideo, hidx]
      split
      · rfl
      · rw [if_pos (by omega)]
    · simp only [playNextVideo, hidx]
      split
      · rfl
      · simp
  · rintro hd tl rfl hcur
    have hfind : (hd :: tl).findIdx? (fun v => v.path == cur.getD "") = some 0 := by
      rw [List.findIdx?_cons, hcur]
      simp
    have hidx := findIndexJS_some hfind
    simp only [playPreviousVideo, hidx]
    split
    · rfl
    · rw [if_pos (by omega)]
  · intro v hlast hcur
    have hfind : lib.findIdx? (fun x => x.path == cur.getD "")
        = some (lib.length - 1) := by
      rw [hcur]
      simpa using findIdx_last_aux v lib hnodup hlast 0
    have hidx := findIndexJS_some hfind
    have hcond : ((lib.length - 1 : Nat) : Int) = -1 ∨
        ((lib.length - 1 : Nat) : Int) ≥ (lib.length : Int) - 1 := Or.inr (by omega)
    have h0 : ¬ lib.length = 0 := by
      cases lib
      · cases hlast
      · simp
    simp only [playNextVideo, hidx, if_neg h0]
    rw [if_pos hcond]

/-- Witness for C10 on a one-entry library whose sole entry is current:
both directions are no-ops. -/
theorem navigation_no_wrap_witness :
    playPreviousVideo [⟨"n", "p", 0, 0⟩] (some "p") = none ∧
    playNextVideo [⟨"n", "p", 0, 0⟩] (some "p") = none :=
  ⟨(navigation_no_wrap [⟨"n", "p", 0, 0⟩] (some "p") (by simp)).2.2.1
      ⟨"n", "p", 0, 0⟩ [] rfl rfl,
   (navigation_no_wrap [⟨"n", "p", 0, 0⟩] (some "p") (by simp)).2.2.2
      ⟨"n", "p", 0, 0⟩ rfl rfl⟩

end FrameX
